import Mathlib

/-!
Verification of the target-resolution and pull engine of the phraseapp
client (`pull.go`).  Strings are embedded as lists of characters
(`Str`); the Go string helpers used by the source (`strings.Count`,
`strings.Contains`, `strings.Replace`, `filepath.Abs`, `filepath.Clean`,
`filepath.Dir`) are modelled below on that representation.  Recursions
that skip more than one character are written with an explicit fuel
argument (initialised to the string length) so that every definition is
structurally recursive and evaluates inside the kernel; a fuel
irrelevance lemma recovers the natural unfolding equations.
-/

/-- Strings of the embedded program: lists of characters. -/
abbrev Str := List Char

/-- Coercion from Lean string literals into the embedding. -/
def str (s : String) : Str := s.data

/-- Fueled core of `strings.Count` (non-overlapping occurrences, scanned
left to right).  The fuel is at least the string length at every call. -/
def countSubF (sub : Str) : Nat → Str → Nat
  | _, [] => 0
  | 0, _ => 0
  | f + 1, c :: cs =>
    if sub ≠ [] ∧ sub <+: (c :: cs) then 1 + countSubF sub f (List.drop (sub.length - 1) cs)
    else countSubF sub f cs

/-- Go `strings.Count s sub` for a non-empty `sub` (the source only ever
counts the literal tokens `*`, `<locale_name>`, `<locale_code>`, `<tag>`). -/
def countSub (sub s : Str) : Nat := countSubF sub s.length s

/-- Go `strings.Contains s sub`. -/
def containsSub (sub : Str) : Str → Bool
  | [] => decide (sub = [])
  | c :: cs => sub.isPrefixOf (c :: cs) || containsSub sub cs

/-- Fueled core of `strings.Replace s old new -1` (replace every
non-overlapping occurrence, left to right; the inserted replacement is
not rescanned by the same call). -/
def repAF (old new : Str) : Nat → Str → Str
  | _, [] => []
  | 0, s => s
  | f + 1, c :: cs =>
    if old ≠ [] ∧ old <+: (c :: cs) then new ++ repAF old new f (List.drop (old.length - 1) cs)
    else c :: repAF old new f cs

/-- Go `strings.Replace s old new -1` for a non-empty `old`. -/
def repA (old new s : Str) : Str := repAF old new s.length s

/-- Go `strings.Join parts sep`. -/
def joinSep (sep : Str) : List Str → Str
  | [] => []
  | [p] => p
  | p :: ps => p ++ sep ++ joinSep sep ps

/-- Split a path at every `/` character (helper for `clean`). -/
def splitSlash : Str → List Str
  | [] => [[]]
  | c :: cs =>
    match splitSlash cs with
    | [] => [[c]]
    | g :: gs => if c = '/' then [] :: g :: gs else (c :: g) :: gs

/-- One step of the component normalisation of `filepath.Clean`:
empty and `.` components are dropped, `..` pops a previous component
(or is kept, resp. dropped at the root, when there is nothing to pop). -/
def cleanStep (rooted : Bool) (st : List Str) (c : Str) : List Str :=
  if c = [] ∨ c = str "." then st
  else if c = str ".." then
    match st with
    | [] => if rooted then [] else [str ".."]
    | top :: rest => if top = str ".." then c :: top :: rest else rest
  else c :: st

/-- Go `filepath.Clean` (unix rules), via path components. -/
def clean (p : Str) : Str :=
  if p = [] then str "."
  else
    let rooted := p.head? = some '/'
    let stack := (splitSlash p).foldl (cleanStep rooted) []
    let body := joinSep (str "/") stack.reverse
    if rooted then '/' :: body
    else if body = [] then str "." else body

/-- Go `filepath.IsAbs` (unix). -/
def isAbsPath (p : Str) : Bool := p.head? = some '/'

/-- Go `filepath.Abs`, with the working directory `wd` (the only
process state it consults) passed explicitly: an absolute path is
cleaned, a relative one is joined onto `wd` (`filepath.Join` cleans). -/
def goAbs (wd p : Str) : Str :=
  if isAbsPath p then clean p
  else if wd = [] then clean p
  else clean (wd ++ '/' :: p)

/-- Go `filepath.Dir`: everything up to (and including) the final
separator, cleaned; `.` when there is no separator. -/
def dirOf (p : Str) : Str := clean (p.reverse.dropWhile (fun c => c ≠ '/')).reverse

/-- Fuel irrelevance for `countSubF`. -/
lemma countSubF_fuel (sub : Str) :
    ∀ f₁ f₂ s, s.length ≤ f₁ → s.length ≤ f₂ → countSubF sub f₁ s = countSubF sub f₂ s := by
  intro f₁
  induction f₁ with
  | zero =>
    intro f₂ s h1 _
    have : s = [] := List.eq_nil_of_length_eq_zero (Nat.le_zero.mp h1)
    subst this
    cases f₂ <;> rfl
  | succ f ih =>
    intro f₂ s h1 h2
    cases s with
    | nil => cases f₂ <;> rfl
    | cons c cs =>
      cases f₂ with
      | zero => simp at h2
      | succ f₂' =>
        simp only [countSubF]
        by_cases h : sub ≠ [] ∧ sub <+: (c :: cs)
        · rw [if_pos h, if_pos h]
          have hd : (List.drop (sub.length - 1) cs).length ≤ f := by
            simp only [List.length_drop]; simp at h1; omega
          have hd2 : (List.drop (sub.length - 1) cs).length ≤ f₂' := by
            simp only [List.length_drop]; simp at h2; omega
          rw [ih _ _ hd hd2]
        · rw [if_neg h, if_neg h]
          have hc : cs.length ≤ f := by simp at h1; omega
          have hc2 : cs.length ≤ f₂' := by simp at h2; omega
          rw [ih _ _ hc hc2]

/-- Unfolding equation of `countSub` on a non-empty string. -/
lemma countSub_cons (sub : Str) (c : Char) (cs : Str) :
    countSub sub (c :: cs) =
      if sub ≠ [] ∧ sub <+: (c :: cs) then 1 + countSub sub (List.drop (sub.length - 1) cs)
      else countSub sub cs := by
  show countSubF sub (c :: cs).length (c :: cs) = _
  simp only [List.length_cons, countSubF]
  by_cases h : sub ≠ [] ∧ sub <+: (c :: cs)
  · rw [if_pos h, if_pos h,
      countSubF_fuel _ _ _ _ (by simp [List.length_drop]) (le_refl _)]
    rfl
  · rw [if_neg h, if_neg h, countSubF_fuel _ _ _ _ (by simp) (le_refl _)]
    rfl

/-- Fuel irrelevance for `repAF`. -/
lemma repAF_fuel (old new : Str) :
    ∀ f₁ f₂ s, s.length ≤ f₁ → s.length ≤ f₂ → repAF old new f₁ s = repAF old new f₂ s := by
  intro f₁
  induction f₁ with
  | zero =>
    intro f₂ s h1 _
    have : s = [] := List.eq_nil_of_length_eq_zero (Nat.le_zero.mp h1)
    subst this
    cases f₂ <;> rfl
  | succ f ih =>
    intro f₂ s h1 h2
    cases s with
    | nil => cases f₂ <;> rfl
    | cons c cs =>
      cases f₂ with
      | zero => simp at h2
      | succ f₂' =>
        simp only [repAF]
        by_cases h : old ≠ [] ∧ old <+: (c :: cs)
        · rw [if_pos h, if_pos h]
          have hd : (List.drop (old.length - 1) cs).length ≤ f := by
            simp only [List.length_drop]; simp at h1; omega
          have hd2 : (List.drop (old.length - 1) cs).length ≤ f₂' := by
            simp only [List.length_drop]; simp at h2; omega
          rw [ih _ _ hd hd2]
        · rw [if_neg h, if_neg h]
          have hc : cs.length ≤ f := by simp at h1; omega
          have hc2 : cs.length ≤ f₂' := by simp at h2; omega
          rw [ih _ _ hc hc2]

/-- `repA` on the empty string. -/
lemma repA_nil (old new : Str) : repA old new [] = [] := rfl

/-- Unfolding equation of `repA` on a non-empty string. -/
lemma repA_cons (old new : Str) (c : Char) (cs : Str) :
    repA old new (c :: cs) =
      if old ≠ [] ∧ old <+: (c :: cs) then new ++ repA old new (List.drop (old.length - 1) cs)
      else c :: repA old new cs := by
  show repAF old new (c :: cs).length (c :: cs) = _
  simp only [List.length_cons, repAF]
  by_cases h : old ≠ [] ∧ old <+: (c :: cs)
  · rw [if_pos h, if_pos h, repAF_fuel _ _ _ _ _ (by simp [List.length_drop]) (le_refl _)]
    rfl
  · rw [if_neg h, if_neg h, repAF_fuel _ _ _ _ _ (by simp) (le_refl _)]
    rfl

-- Decidable equality for `Except` outcomes, used to evaluate the model
-- on concrete inputs.
deriving instance DecidableEq for Except

/-- Remote locale record (`phraseapp.Locale`): the three fields the core
reads.  The catalog carries `*phraseapp.Locale` values, so a record in a
catalog is an `Option LocaleRec`, `none` standing for a nil pointer. -/
structure LocaleRec where
  id : Str
  name : Str
  code : Str
deriving DecidableEq, Repr

/-- `LocaleFile` (one resolved file): field names follow the Go struct
(`Name`, `ID`, `RFC`, `Tag`, `FileFormat`, `Path`). -/
structure LocaleFile where
  name : Str
  id : Str
  rfc : Str
  tag : Str
  fileFormat : Str
  path : Str
deriving DecidableEq, Repr

/-- `phraseapp.LocaleDownloadParams` (external collaborator type): only
the two optional fields the core reads or writes (`FileFormat`, `Tag`)
are modelled; the remaining option fields are passed through opaquely
and never inspected by `pull.go`. -/
structure LocaleDownloadParams where
  fileFormat : Option Str
  tag : Option Str
deriving DecidableEq, Repr

/-- `PullParams`: the embedded `phraseapp.LocaleDownloadParams` plus the
separately extracted `LocaleID`. -/
structure PullParams where
  downloadParams : LocaleDownloadParams
  localeID : Str
deriving DecidableEq, Repr

/-- `Target`: one configured pull target.  `Params` is a pointer in Go,
hence an `Option`; `RemoteLocales` is the fetched catalog. -/
structure Target where
  file : Str
  projectID : Str
  accessToken : Str
  fileFormat : Str
  params : Option PullParams
  remoteLocales : List (Option LocaleRec)
deriving DecidableEq, Repr

/-- Outcome of a failed operation: `err` is an ordinary Go `error`
value carrying its message, `crash` is a runtime panic (e.g. a nil
pointer dereference), which aborts the process rather than returning. -/
inductive Failure where
  | err (msg : Str)
  | crash (msg : Str)
deriving DecidableEq, Repr

/-- Observable side effects of a pull run: the catalog fetch, each
download attempt (`client.LocaleDownload`), and the two reporting sinks
(`ReportError`, `sharedMessage`). -/
inductive Event where
  | fetched (projectID : Str)
  | downloadAttempt (projectID localeID : Str) (params : LocaleDownloadParams)
  | reportedError (ctx msg : Str)
  | reportedSuccess (lf : LocaleFile)
deriving DecidableEq, Repr

/-- External collaborators of one pull run.  `wd` is the process
working directory consulted by `filepath.Abs`; `fetch` models
`RemoteLocales(client, projectID)` (defined outside the sources under
verification; the spec collaborator `RemoteLocaleCatalog.Fetch`);
`download` models `client.LocaleDownload(projectID, localeID, params)`
returning the downloaded bytes. -/
structure Env where
  wd : Str
  fetch : Str → Except Str (List (Option LocaleRec))
  download : Str → Str → LocaleDownloadParams → Except Str Str

/-- Filesystem state: regular files (path, permission bits, content)
and directories (path, permission bits). -/
structure FS where
  files : List (Str × Nat × Str)
  dirs : List (Str × Nat)
deriving DecidableEq, Repr

/-- Permission and content of the file at `p`, when present. -/
def FS.findFile (fs : FS) (p : Str) : Option (Nat × Str) :=
  (fs.files.find? (fun e => decide (e.1 = p))).map (fun e => e.2)

/-- Permission of the directory at `p`, when present. -/
def FS.findDir (fs : FS) (p : Str) : Option Nat :=
  (fs.dirs.find? (fun e => decide (e.1 = p))).map (fun e => e.2)

/-- A regular file exists at `p`. -/
def FS.fileExists (fs : FS) (p : Str) : Bool := (fs.findFile p).isSome

/-- A directory exists at `p`. -/
def FS.dirExists (fs : FS) (p : Str) : Bool := (fs.findDir p).isSome

/-- Modelled from the spec: the helper `Exists` (defined outside the
sources under verification) wraps `os.Stat`, succeeding when the path
names an existing file or directory. -/
def FS.pathExists (fs : FS) (p : Str) : Bool := fs.fileExists p || fs.dirExists p

/-- `os.Create p`: truncates an existing file keeping its permission;
otherwise creates an empty file with the default permission bits 0666
(as passed to the operating system, before the umask). -/
def FS.createEmpty (fs : FS) (p : Str) : FS :=
  match fs.findFile p with
  | some _ => {fs with files := fs.files.map (fun e => if e.1 = p then (e.1, e.2.1, []) else e)}
  | none => {fs with files := (p, 0o666, []) :: fs.files}

/-- `ioutil.WriteFile p content perm`: overwrites an existing file
keeping its permission, otherwise creates it with `perm`. -/
def FS.writeFile (fs : FS) (p : Str) (content : Str) (perm : Nat) : FS :=
  match fs.findFile p with
  | some _ =>
    {fs with files := fs.files.map (fun e => if e.1 = p then (e.1, e.2.1, content) else e)}
  | none => {fs with files := (p, perm, content) :: fs.files}

/-- Fueled core of `os.MkdirAll`: create the directory and its missing
ancestors, each with permission `perm`.  The fuel bounds the ancestor
chain (each step strictly shortens the path or reaches a fixpoint). -/
def mkdirAllF (perm : Nat) : Nat → FS → Str → FS
  | 0, fs, _ => fs
  | f + 1, fs, d =>
    if fs.dirExists d then fs
    else
      let parent := dirOf d
      let fs1 := if parent = d then fs else mkdirAllF perm f fs parent
      {fs1 with dirs := (d, perm) :: fs1.dirs}

/-- `os.MkdirAll d perm`. -/
def FS.mkdirAll (fs : FS) (d : Str) (perm : Nat) : FS := mkdirAllF perm (d.length + 1) fs d

/-- `createFile path`: when nothing exists at `path`, create the parent
directory chain (permission 0700) if missing and then an empty file via
`os.Create`; an existing path is left untouched.  The error returns of
the OS calls (refused creation) are not modelled: the model's
filesystem operations always succeed. -/
def createFile (fs : FS) (p : Str) : FS :=
  if fs.pathExists p then fs
  else
    let absDir := dirOf p
    let fs1 := if fs.pathExists absDir then fs else fs.mkdirAll absDir 0o700
    fs1.createEmpty p

/-- The placeholder `<locale_name>`. -/
def nameTok : Str := str "<locale_name>"

/-- The placeholder `<locale_code>`. -/
def codeTok : Str := str "<locale_code>"

/-- The placeholder `<tag>`. -/
def tagTok : Str := str "<tag>"

/-- The wildcard character, as a one-character string. -/
def starTok : Str := str "*"

/-- The three recognized placeholders, in the order the source checks
them. -/
def placeholderToks : List Str := [nameTok, codeTok, tagTok]

/-- Error message of the wildcard precondition. -/
def starErrMsg : Str :=
  str "File pattern for \x27pull\x27 cannot include any \x27stars\x27 *. Please specify direct and valid paths with file name!\nhttp://docs.phraseapp.com/developers/cli/configuration/#targets"

/-- Error message of the duplicate-placeholder precondition. -/
def dupErrMsg (dups : List Str) : Str :=
  joinSep (str ", ") dups ++ str " can only occur once in a file pattern!"

/-- Error message for a nil locale record. -/
def nilLocaleMsg : Str := str "Remote locale could not be downloaded correctly!"

/-- Error message for a matched record lacking a locale code while the
pattern uses `<locale_code>`; it names the offending locale id. -/
def codeMissingMsg (localeID : Str) : Str :=
  str "Locale code is not set for Locale with ID: " ++ localeID ++
    str " but locale_code is used in file name"

/-- Message of the Go runtime panic raised by a nil pointer dereference. -/
def nilDerefMsg : Str := str "runtime error: invalid memory address or nil pointer dereference"

/-- Context string of every `ReportError` call in `pull.go`. -/
def pullErrCtx : Str := str "Pull Error"

/-- Modelled from the spec: `ValidPath` is defined outside the sources
under verification; §4.2 of the spec gives precondition checking
exactly two rules (wildcard presence, then the duplicate-placeholder
check), so this preliminary path-validity step is modelled as always
succeeding. -/
def ValidPath (_file _fileFormat _formatExtension : Str) : Except Str Unit := .ok ()

/-- `Target.GetLocaleID`. -/
def Target.GetLocaleID (t : Target) : Str :=
  match t.params with
  | some p => p.localeID
  | none => []

/-- `Target.GetTag`. -/
def Target.GetTag (t : Target) : Str :=
  match t.params with
  | some p =>
    match p.downloadParams.tag with
    | some tg => tg
    | none => []
  | none => []

/-- `Target.GetFormat`. -/
def Target.GetFormat (t : Target) : Str :=
  match t.params with
  | some p =>
    match p.downloadParams.fileFormat with
    | some ff => ff
    | none => if t.fileFormat ≠ [] then t.fileFormat else []
  | none => if t.fileFormat ≠ [] then t.fileFormat else []

/-- `Target.CheckPreconditions`: path validity, then the wildcard rule,
then the duplicate-placeholder rule (collecting every placeholder whose
count exceeds one). -/
def Target.CheckPreconditions (tgt : Target) : Except Str Unit :=
  match ValidPath tgt.file tgt.fileFormat [] with
  | .error e => .error e
  | .ok _ =>
    if countSub starTok tgt.file > 0 then .error starErrMsg
    else
      let dups := placeholderToks.filter (fun nm => decide (countSub nm tgt.file > 1))
      if dups.length > 0 then .error (dupErrMsg dups)
      else .ok ()

/-- `Target.IsValidLocale`: a nil record, or a matched record with an
empty code while the pattern uses `<locale_code>`, is rejected; the
error is also emitted through `ReportError`. -/
def Target.IsValidLocale (_tgt : Target) (locale : Option LocaleRec) (localPath : Str) :
    Except Str Unit × List Event :=
  match locale with
  | none => (.error nilLocaleMsg, [.reportedError pullErrCtx nilLocaleMsg])
  | some loc =>
    if containsSub codeTok localPath ∧ loc.code = [] then
      (.error (codeMissingMsg loc.id), [.reportedError pullErrCtx (codeMissingMsg loc.id)])
    else (.ok (), [])

/-- `Target.ReplacePlaceholders`: absolutize the pattern, then replace
`<locale_name>`, `<locale_code>` and `<tag>` in that order.  In Go the
only error source is `filepath.Abs` reading the working directory,
which is passed here explicitly, so the function is total. -/
def Target.ReplacePlaceholders (tgt : Target) (wd : Str) (lf : LocaleFile) : Str :=
  let absPath := goAbs wd tgt.file
  repA tagTok lf.tag (repA codeTok lf.rfc (repA nameTok lf.name absPath))

/-- Body of the `Target.LocaleFiles` loop once a record survives the
selector filter: validate it, build the `LocaleFile` (path expanded via
`ReplacePlaceholders`) and prepend it to the result for the remaining
records.  A nil record that reaches the build step would dereference a
nil pointer (unreachable: `IsValidLocale` rejects nil records). -/
def Target.lfHandle (tgt : Target) (wd : Str) (r : Option LocaleRec)
    (rest : Except Failure (List LocaleFile) × List Event) :
    Except Failure (List LocaleFile) × List Event :=
  match tgt.IsValidLocale r tgt.file with
  | (.error m, evs) => (.error (.err m), evs)
  | (.ok _, _) =>
    match r with
    | none => (.error (.crash nilDerefMsg), [])
    | some loc =>
      let lf0 : LocaleFile :=
        { name := loc.name, id := loc.id, rfc := loc.code, tag := tgt.GetTag,
          fileFormat := tgt.GetFormat, path := tgt.file }
      let lf := {lf0 with path := tgt.ReplacePlaceholders wd lf0}
      match rest with
      | (.error f, evs) => (.error f, evs)
      | (.ok files, evs) => (.ok (lf :: files), evs)

/-- The `Target.LocaleFiles` loop over the catalog.  When a selector is
set, the filter line `remoteLocale.ID == localeID || remoteLocale.Name
== localeID` dereferences the record, so a nil record panics there; with
no selector the `&&` short-circuits and the record reaches
`IsValidLocale`. -/
def Target.lfGo (tgt : Target) (wd : Str) : List (Option LocaleRec) →
    Except Failure (List LocaleFile) × List Event
  | [] => (.ok [], [])
  | r :: rest =>
    if tgt.GetLocaleID = [] then tgt.lfHandle wd r (tgt.lfGo wd rest)
    else
      match r with
      | none => (.error (.crash nilDerefMsg), [])
      | some loc =>
        if loc.id = tgt.GetLocaleID ∨ loc.name = tgt.GetLocaleID then
          tgt.lfHandle wd r (tgt.lfGo wd rest)
        else tgt.lfGo wd rest

/-- `Target.LocaleFiles`. -/
def Target.LocaleFiles (tgt : Target) (wd : Str) :
    Except Failure (List LocaleFile) × List Event :=
  tgt.lfGo wd tgt.remoteLocales

/-- The download parameters built by `Target.DownloadAndWriteToFile`:
the target's params (zero value when absent), with the file format
defaulted from the resolved file when unset. -/
def mkDownloadParams (tgt : Target) (lf : LocaleFile) : LocaleDownloadParams :=
  let dlp :=
    match tgt.params with
    | some p => p.downloadParams
    | none => {fileFormat := none, tag := none}
  match dlp.fileFormat with
  | none => {dlp with fileFormat := some lf.fileFormat}
  | some _ => dlp

/-- `Target.DownloadAndWriteToFile`: call `client.LocaleDownload` and,
on success, write the bytes to the resolved path with permission 0700
(`ioutil.WriteFile`).  The `Debug` stderr prints are diagnostics only
and are not modelled; the write itself is modelled as succeeding (its
error return in Go is an OS refusal outside the program's control). -/
def Target.DownloadAndWriteToFile (tgt : Target) (env : Env) (fs : FS) (lf : LocaleFile) :
    Except Str Unit × FS × List Event :=
  let dlp := mkDownloadParams tgt lf
  match env.download tgt.projectID lf.id dlp with
  | .error e => (.error e, fs, [.downloadAttempt tgt.projectID lf.id dlp])
  | .ok res => (.ok (), fs.writeFile lf.path res 0o700, [.downloadAttempt tgt.projectID lf.id dlp])

/-- `localeIdToFileIsDistinct` in `Target.Pull`: a selector is set and
resolution produced exactly one file. -/
def distinctFlag (tgt : Target) (files : List LocaleFile) : Bool :=
  decide (tgt.GetLocaleID ≠ []) && decide (files.length = 1)

/-- The locale-id override inside the pull loop: when the target's
selector maps to exactly one file (`localeIdToFileIsDistinct`), the
file's id is overwritten with the selector value. -/
def Target.effectiveFile (tgt : Target) (distinct : Bool) (lf : LocaleFile) : LocaleFile :=
  if distinct then
    if tgt.GetLocaleID ≠ [] then {lf with id := tgt.GetLocaleID} else lf
  else lf

/-- The per-file loop of `Target.Pull`: ensure the destination exists
(`createFile`), apply the locale-id override, transfer; on failure
annotate the error with the destination path, report it and stop; on
success report it and continue. -/
def Target.pullLoop (tgt : Target) (env : Env) (distinct : Bool) :
    FS → List LocaleFile → Except Failure Unit × FS × List Event
  | fs, [] => (.ok (), fs, [])
  | fs, lf :: rest =>
    let fs1 := createFile fs lf.path
    let lf' := tgt.effectiveFile distinct lf
    match tgt.DownloadAndWriteToFile env fs1 lf' with
    | (.error e, fs2, evs) =>
      let errmsg := e ++ str " for " ++ lf'.path
      (.error (.err errmsg), fs2, evs ++ [.reportedError pullErrCtx errmsg])
    | (.ok _, fs2, evs) =>
      match tgt.pullLoop env distinct fs2 rest with
      | (r, fs3, evs') => (r, fs3, evs ++ [.reportedSuccess lf'] ++ evs')

/-- `Target.Pull`: preconditions, catalog fetch, resolution, then the
per-file loop.  Returns the outcome together with the final filesystem
and the event trace.  The `Debug` separator print at the end of each
iteration is diagnostics only and is not modelled. -/
def Target.pull (tgt : Target) (env : Env) (fs : FS) :
    Except Failure Unit × FS × List Event :=
  match tgt.CheckPreconditions with
  | .error m => (.error (.err m), fs, [])
  | .ok _ =>
    match env.fetch tgt.projectID with
    | .error e => (.error (.err e), fs, [.fetched tgt.projectID])
    | .ok remoteLocales =>
      let tgt' := {tgt with remoteLocales := remoteLocales}
      match tgt'.LocaleFiles env.wd with
      | (.error f, evs) => (.error f, fs, .fetched tgt.projectID :: evs)
      | (.ok files, evs) =>
        let distinct := distinctFlag tgt' files
        match tgt'.pullLoop env distinct fs files with
        | (r, fs', evs') => (r, fs', (.fetched tgt.projectID :: evs) ++ evs')

/-- The `LocaleFile` that `Target.LocaleFiles` builds for a surviving
record `loc`: id and code from the record, tag and format from the
target, path from `ReplacePlaceholders`. -/
def Target.resolvedFileFor (tgt : Target) (wd : Str) (loc : LocaleRec) : LocaleFile :=
  let lf0 : LocaleFile :=
    { name := loc.name, id := loc.id, rfc := loc.code, tag := tgt.GetTag,
      fileFormat := tgt.GetFormat, path := tgt.file }
  {lf0 with path := tgt.ReplacePlaceholders wd lf0}

/-- A record survives the selector filter of `Target.LocaleFiles`:
either no selector is set, or the record's id or name equals it. -/
def Target.matchedBy (tgt : Target) (loc : LocaleRec) : Prop :=
  tgt.GetLocaleID = [] ∨ loc.id = tgt.GetLocaleID ∨ loc.name = tgt.GetLocaleID

/-- Spec §4.1, written from the spec's words for comparison with the
source's sequential substitution: a single simultaneous left-to-right
scan substituting each placeholder token with its value verbatim, the
substituted values never rescanned. -/
def simSubstF (vn vc vt : Str) : Nat → Str → Str
  | _, [] => []
  | 0, s => s
  | f + 1, c :: cs =>
    if nameTok <+: (c :: cs) then vn ++ simSubstF vn vc vt f (List.drop (nameTok.length - 1) cs)
    else if codeTok <+: (c :: cs) then vc ++ simSubstF vn vc vt f (List.drop (codeTok.length - 1) cs)
    else if tagTok <+: (c :: cs) then vt ++ simSubstF vn vc vt f (List.drop (tagTok.length - 1) cs)
    else c :: simSubstF vn vc vt f cs

/-- Simultaneous verbatim substitution (spec's words); fuel instantiated. -/
def simSubst (vn vc vt s : Str) : Str := simSubstF vn vc vt s.length s

/-- Patterns built from literal characters other than `<` and `>`
interspersed with well-formed placeholder tokens.  On such patterns a
placeholder token can never overlap a substituted value, so sequential
and simultaneous substitution agree. -/
def patOkF : Nat → Str → Bool
  | _, [] => true
  | 0, _ => false
  | f + 1, c :: cs =>
    if nameTok <+: (c :: cs) then patOkF f (List.drop (nameTok.length - 1) cs)
    else if codeTok <+: (c :: cs) then patOkF f (List.drop (codeTok.length - 1) cs)
    else if tagTok <+: (c :: cs) then patOkF f (List.drop (tagTok.length - 1) cs)
    else decide (c ≠ '<') && decide (c ≠ '>') && patOkF f cs

/-- Token-clean patterns; fuel instantiated. -/
def patOk (s : Str) : Bool := patOkF s.length s


/-- The download-call outcome the pull loop observes for one resolved
file (after the locale-id override): the only failure source of
`DownloadAndWriteToFile` in the model. -/
def transferResult (env : Env) (tgt : Target) (distinct : Bool) (lf : LocaleFile) :
    Except Str Str :=
  env.download tgt.projectID (tgt.effectiveFile distinct lf).id
    (mkDownloadParams tgt (tgt.effectiveFile distinct lf))

/-- The two trace events of one successful file transfer. -/
def successTrace (tgt : Target) (distinct : Bool) (lf : LocaleFile) : List Event :=
  [Event.downloadAttempt tgt.projectID (tgt.effectiveFile distinct lf).id
     (mkDownloadParams tgt (tgt.effectiveFile distinct lf)),
   Event.reportedSuccess (tgt.effectiveFile distinct lf)]

/-- With no selector set and every record well-formed, the
`LocaleFiles` loop keeps every record, in order. -/
lemma lfGo_all (tgt : Target) (wd : Str) (hsel : tgt.GetLocaleID = [])
    (locs : List LocaleRec)
    (hval : ∀ loc ∈ locs, containsSub codeTok tgt.file = true → loc.code ≠ []) :
    tgt.lfGo wd (locs.map some) = (.ok (locs.map (tgt.resolvedFileFor wd)), []) := by
  induction locs with
  | nil => rfl
  | cons loc rest ih =>
    have hv : ¬(containsSub codeTok tgt.file = true ∧ loc.code = []) := by
      rintro ⟨h1, h2⟩
      exact hval loc (List.mem_cons_self _ _) h1 h2
    simp only [List.map_cons, Target.lfGo, hsel, if_pos]
    rw [ih (fun l hl => hval l (List.mem_cons_of_mem _ hl))]
    simp only [Target.lfHandle, Target.IsValidLocale, if_neg hv]
    rfl

/-- With a selector set and every matched record well-formed, the
`LocaleFiles` loop keeps exactly the records whose id or name equals
the selector, in order. -/
lemma lfGo_filter (tgt : Target) (wd : Str) (sel : Str) (hsel : tgt.GetLocaleID = sel)
    (hne : sel ≠ []) (locs : List LocaleRec)
    (hval : ∀ loc ∈ locs, (loc.id = sel ∨ loc.name = sel) →
      containsSub codeTok tgt.file = true → loc.code ≠ []) :
    tgt.lfGo wd (locs.map some) =
      (.ok ((locs.filter (fun loc => decide (loc.id = sel) || decide (loc.name = sel))).map
        (tgt.resolvedFileFor wd)), []) := by
  induction locs with
  | nil => rfl
  | cons loc rest ih =>
    have hrest := ih (fun l hl => hval l (List.mem_cons_of_mem _ hl))
    by_cases hm : loc.id = sel ∨ loc.name = sel
    · have hv : ¬(containsSub codeTok tgt.file = true ∧ loc.code = []) := by
        rintro ⟨h1, h2⟩
        exact hval loc (List.mem_cons_self _ _) hm h1 h2
      have hmB : (decide (loc.id = sel) || decide (loc.name = sel)) = true := by
        rcases hm with h | h <;> simp [h]
      simp only [List.map_cons, Target.lfGo, hsel, if_neg hne, if_pos hm]
      rw [hrest]
      simp only [Target.lfHandle, Target.IsValidLocale, if_neg hv, List.filter_cons, hmB,
        if_pos, List.map_cons]
      rfl
    · have hmB : (decide (loc.id = sel) || decide (loc.name = sel)) = false := by
        push_neg at hm
        simp [hm.1, hm.2]
      simp only [List.map_cons, Target.lfGo, hsel, if_neg hne, if_neg hm]
      rw [hrest]
      simp only [List.filter_cons, hmB]
      simp

/-- When the pattern uses `<locale_code>` and some matched record has an
empty code, the `LocaleFiles` loop fails with the code-missing error of
the first such record and yields no file list. -/
lemma lfGo_code_missing (tgt : Target) (wd : Str) (locs : List LocaleRec)
    (hcontains : containsSub codeTok tgt.file = true)
    (hex : ∃ loc ∈ locs, tgt.matchedBy loc ∧ loc.code = []) :
    ∃ loc ∈ locs, tgt.matchedBy loc ∧ loc.code = [] ∧
      tgt.lfGo wd (locs.map some) =
        (.error (.err (codeMissingMsg loc.id)),
          [.reportedError pullErrCtx (codeMissingMsg loc.id)]) := by
  induction locs with
  | nil => simp at hex
  | cons loc rest ih =>
    by_cases hsel : tgt.GetLocaleID = []
    · by_cases hcode : loc.code = []
      · refine ⟨loc, List.mem_cons_self _ _, Or.inl hsel, hcode, ?_⟩
        simp only [List.map_cons, Target.lfGo, hsel, if_pos, Target.lfHandle,
          Target.IsValidLocale, if_pos (And.intro hcontains hcode)]
      · have hex' : ∃ l ∈ rest, tgt.matchedBy l ∧ l.code = [] := by
          rcases hex with ⟨l, hl, hm, hc⟩
          rcases List.mem_cons.mp hl with rfl | hl'
          · exact absurd hc hcode
          · exact ⟨l, hl', hm, hc⟩
        rcases ih hex' with ⟨l, hl, hm, hc, heq⟩
        refine ⟨l, List.mem_cons_of_mem _ hl, hm, hc, ?_⟩
        have hv : ¬(containsSub codeTok tgt.file = true ∧ loc.code = []) := by
          rintro ⟨_, h2⟩; exact hcode h2
        simp only [List.map_cons, Target.lfGo, hsel, if_pos, Target.lfHandle,
          Target.IsValidLocale, if_neg hv, heq]
    · by_cases hm : loc.id = tgt.GetLocaleID ∨ loc.name = tgt.GetLocaleID
      · by_cases hcode : loc.code = []
        · refine ⟨loc, List.mem_cons_self _ _, Or.inr hm, hcode, ?_⟩
          simp only [List.map_cons, Target.lfGo, if_neg hsel, if_pos hm, Target.lfHandle,
            Target.IsValidLocale, if_pos (And.intro hcontains hcode)]
        · have hex' : ∃ l ∈ rest, tgt.matchedBy l ∧ l.code = [] := by
            rcases hex with ⟨l, hl, hmm, hc⟩
            rcases List.mem_cons.mp hl with rfl | hl'
            · exact absurd hc hcode
            · exact ⟨l, hl', hmm, hc⟩
          rcases ih hex' with ⟨l, hl, hmm, hc, heq⟩
          refine ⟨l, List.mem_cons_of_mem _ hl, hmm, hc, ?_⟩
          have hv : ¬(containsSub codeTok tgt.file = true ∧ loc.code = []) := by
            rintro ⟨_, h2⟩; exact hcode h2
          simp only [List.map_cons, Target.lfGo, if_neg hsel, if_pos hm, Target.lfHandle,
            Target.IsValidLocale, if_neg hv, heq]
      · have hex' : ∃ l ∈ rest, tgt.matchedBy l ∧ l.code = [] := by
          rcases hex with ⟨l, hl, hmm, hc⟩
          rcases List.mem_cons.mp hl with rfl | hl'
          · rcases hmm with h | h
            · exact absurd h hsel
            · exact absurd h hm
          · exact ⟨l, hl', hmm, hc⟩
        rcases ih hex' with ⟨l, hl, hmm, hc, heq⟩
        refine ⟨l, List.mem_cons_of_mem _ hl, hmm, hc, ?_⟩
        simp only [List.map_cons, Target.lfGo, if_neg hsel, if_neg hm, heq]

/-- A catalog containing a nil record never resolves: with no selector
the loop fails with an ordinary descriptive error, with a selector set
it can also end in a nil-dereference crash — in neither case is a file
list produced. -/
lemma lfGo_nil_mem (tgt : Target) (wd : Str) (rl : List (Option LocaleRec))
    (hmem : none ∈ rl) :
    (∀ fl, (tgt.lfGo wd rl).1 ≠ .ok fl) ∧
    (tgt.GetLocaleID = [] → ∃ m, (tgt.lfGo wd rl).1 = .error (.err m)) := by
  induction rl with
  | nil => simp at hmem
  | cons r rest ih =>
    by_cases hsel : tgt.GetLocaleID = []
    · cases r with
      | none =>
        constructor
        · intro fl
          simp [Target.lfGo, hsel, Target.lfHandle, Target.IsValidLocale]
        · intro _
          exact ⟨nilLocaleMsg, by simp [Target.lfGo, hsel, Target.lfHandle, Target.IsValidLocale]⟩
      | some loc =>
        have hrest : none ∈ rest := by
          rcases List.mem_cons.mp hmem with h | h
          · exact absurd h (by simp)
          · exact h
        rcases (ih hrest).2 hsel with ⟨m, hm⟩
        by_cases hv : containsSub codeTok tgt.file = true ∧ loc.code = []
        · constructor
          · intro fl
            simp [Target.lfGo, hsel, Target.lfHandle, Target.IsValidLocale, hv]
          · intro _
            exact ⟨codeMissingMsg loc.id,
              by simp [Target.lfGo, hsel, Target.lfHandle, Target.IsValidLocale, hv]⟩
        · have hstep : (tgt.lfGo wd (some loc :: rest)).1 = .error (.err m) := by
            rcases hpair : tgt.lfGo wd rest with ⟨res, evs⟩
            rw [hpair] at hm
            simp only at hm
            subst hm
            simp [Target.lfGo, hsel, Target.lfHandle, Target.IsValidLocale, hv, hpair]
          exact ⟨fun fl => by simp [hstep], fun _ => ⟨m, hstep⟩⟩
    · cases r with
      | none =>
        constructor
        · intro fl
          simp [Target.lfGo, hsel]
        · intro h
          exact absurd h hsel
      | some loc =>
        have hrest : none ∈ rest := by
          rcases List.mem_cons.mp hmem with h | h
          · exact absurd h (by simp)
          · exact h
        have ih1 := (ih hrest).1
        by_cases hm : loc.id = tgt.GetLocaleID ∨ loc.name = tgt.GetLocaleID
        · constructor
          · intro fl
            by_cases hv : containsSub codeTok tgt.file = true ∧ loc.code = []
            · simp [Target.lfGo, hsel, hm, Target.lfHandle, Target.IsValidLocale, hv]
            · rcases hpair : tgt.lfGo wd rest with ⟨res, evs⟩
              cases res with
              | ok files => exact absurd (by rw [hpair]) (ih1 files)
              | error f =>
                simp [Target.lfGo, hsel, hm, Target.lfHandle, Target.IsValidLocale, hv, hpair]
          · intro h
            exact absurd h hsel
        · constructor
          · intro fl
            have : tgt.lfGo wd (some loc :: rest) = tgt.lfGo wd rest := by
              simp [Target.lfGo, hsel, hm]
            rw [this]
            exact ih1 fl
          · intro h
            exact absurd h hsel

/-- The pull loop succeeds exactly when every file's transfer succeeds. -/
lemma pullLoop_ok_iff (env : Env) (tgt : Target) (d : Bool) :
    ∀ fs files, (tgt.pullLoop env d fs files).1 = .ok () ↔
      ∀ lf ∈ files, ∃ b, transferResult env tgt d lf = .ok b := by
  intro fs files
  induction files generalizing fs with
  | nil => simp [Target.pullLoop]
  | cons lf rest ih =>
    rcases hdl : env.download tgt.projectID (tgt.effectiveFile d lf).id
        (mkDownloadParams tgt (tgt.effectiveFile d lf)) with e | b
    · have hres : transferResult env tgt d lf = .error e := hdl
      constructor
      · intro h
        exfalso
        revert h
        simp [Target.pullLoop, Target.DownloadAndWriteToFile, hdl]
      · intro h
        rcases h lf (List.mem_cons_self _ _) with ⟨b, hb⟩
        rw [hres] at hb
        cases hb
    · have hres : transferResult env tgt d lf = .ok b := hdl
      have hstep :
          (tgt.pullLoop env d fs (lf :: rest)).1 =
            (tgt.pullLoop env d ((createFile fs lf.path).writeFile
              (tgt.effectiveFile d lf).path b 0o700) rest).1 := by
        simp [Target.pullLoop, Target.DownloadAndWriteToFile, hdl]
      rw [hstep, ih]
      constructor
      · intro h
        intro l hl
        rcases List.mem_cons.mp hl with rfl | hl'
        · exact ⟨b, hres⟩
        · exact h l hl'
      · intro h l hl
        exact h l (List.mem_cons_of_mem _ hl)

/-- When the first `k` transfers succeed and the `k`-th fails, the pull
loop returns the annotated error and its trace is exactly the success
events of the first `k` files, the failing attempt, and the error
report — nothing for any later file. -/
lemma pullLoop_fail_at (env : Env) (tgt : Target) (d : Bool) :
    ∀ files k fs e (hk : k < files.length),
      (∀ i (hi : i < k), ∃ b,
        transferResult env tgt d (files.get ⟨i, Nat.lt_trans hi hk⟩) = .ok b) →
      transferResult env tgt d (files.get ⟨k, hk⟩) = .error e →
      (tgt.pullLoop env d fs files).1 =
        .error (.err (e ++ str " for " ++ (tgt.effectiveFile d (files.get ⟨k, hk⟩)).path)) ∧
      (tgt.pullLoop env d fs files).2.2 =
        ((files.take k).map (successTrace tgt d)).flatten ++
          [Event.downloadAttempt tgt.projectID (tgt.effectiveFile d (files.get ⟨k, hk⟩)).id
             (mkDownloadParams tgt (tgt.effectiveFile d (files.get ⟨k, hk⟩))),
           Event.reportedError pullErrCtx
             (e ++ str " for " ++ (tgt.effectiveFile d (files.get ⟨k, hk⟩)).path)] := by
  intro files
  induction files with
  | nil =>
    intro k fs e hk
    simp at hk
  | cons lf rest ih =>
    intro k fs e hk hpre hfail
    cases k with
    | zero =>
      have hdl : env.download tgt.projectID (tgt.effectiveFile d lf).id
          (mkDownloadParams tgt (tgt.effectiveFile d lf)) = .error e := hfail
      constructor
      · simp [Target.pullLoop, Target.DownloadAndWriteToFile, hdl]
      · simp [Target.pullLoop, Target.DownloadAndWriteToFile, hdl, successTrace]
    | succ k' =>
      rcases hpre 0 (Nat.succ_pos _) with ⟨b, hb⟩
      have hdl : env.download tgt.projectID (tgt.effectiveFile d lf).id
          (mkDownloadParams tgt (tgt.effectiveFile d lf)) = .ok b := hb
      have hk' : k' < rest.length := Nat.lt_of_succ_lt_succ hk
      have hpre' : ∀ i (hi : i < k'), ∃ b,
          transferResult env tgt d (rest.get ⟨i, Nat.lt_trans hi hk'⟩) = .ok b := by
        intro i hi
        exact hpre (i + 1) (Nat.succ_lt_succ hi)
      have hfail' : transferResult env tgt d (rest.get ⟨k', hk'⟩) = .error e := hfail
      rcases ih k' ((createFile fs lf.path).writeFile (tgt.effectiveFile d lf).path b 0o700)
          e hk' hpre' hfail' with ⟨h1, h2⟩
      constructor
      · rcases hpair : tgt.pullLoop env d
            ((createFile fs lf.path).writeFile (tgt.effectiveFile d lf).path b 0o700) rest
          with ⟨res, fs3, evs3⟩
        rw [hpair] at h1
        simp only at h1
        simp [Target.pullLoop, Target.DownloadAndWriteToFile, hdl, hpair, h1]
      · rcases hpair : tgt.pullLoop env d
            ((createFile fs lf.path).writeFile (tgt.effectiveFile d lf).path b 0o700) rest
          with ⟨res, fs3, evs3⟩
        rw [hpair] at h2
        simp only at h2
        simp [Target.pullLoop, Target.DownloadAndWriteToFile, hdl, hpair, h2, successTrace]

/-- Unfolding of `Target.pull` when preconditions hold, the fetch
returns the target's catalog and resolution succeeds. -/
lemma pull_eq_loop (tgt : Target) (env : Env) (fs : FS) (files : List LocaleFile)
    (evs : List Event)
    (hc : tgt.CheckPreconditions = .ok ())
    (hf : env.fetch tgt.projectID = .ok tgt.remoteLocales)
    (hlf : tgt.LocaleFiles env.wd = (.ok files, evs)) :
    tgt.pull env fs =
      ((tgt.pullLoop env (distinctFlag tgt files) fs files).1,
       (tgt.pullLoop env (distinctFlag tgt files) fs files).2.1,
       (Event.fetched tgt.projectID :: evs) ++
         (tgt.pullLoop env (distinctFlag tgt files) fs files).2.2) := by
  have heta : {tgt with remoteLocales := tgt.remoteLocales} = tgt := rfl
  simp only [Target.pull, hc, hf, heta, hlf]

/-- Unfolding of `Target.pull` when preconditions hold, the fetch
returns the target's catalog and resolution fails. -/
lemma pull_eq_resolution_failure (tgt : Target) (env : Env) (fs : FS) (f : Failure)
    (evs : List Event)
    (hc : tgt.CheckPreconditions = .ok ())
    (hf : env.fetch tgt.projectID = .ok tgt.remoteLocales)
    (hlf : tgt.LocaleFiles env.wd = (.error f, evs)) :
    tgt.pull env fs = (.error f, fs, Event.fetched tgt.projectID :: evs) := by
  have heta : {tgt with remoteLocales := tgt.remoteLocales} = tgt := rfl
  simp only [Target.pull, hc, hf, heta, hlf]

/-- If `old` begins an append `t ++ b`, then `old` and `t` are
prefix-comparable. -/
lemma prefix_append_comparable : ∀ {t old b : Str}, old <+: t ++ b → t <+: old ∨ old <+: t := by
  intro t
  induction t with
  | nil =>
    intro old b _
    left
    exact List.nil_prefix
  | cons x t' ih =>
    intro old b h
    cases old with
    | nil =>
      right
      exact List.nil_prefix
    | cons o old' =>
      rw [List.cons_append] at h
      rcases List.cons_prefix_cons.mp h with ⟨rfl, h'⟩
      rcases ih h' with h1 | h1
      · left
        exact List.cons_prefix_cons.mpr ⟨rfl, h1⟩
      · right
        exact List.cons_prefix_cons.mpr ⟨rfl, h1⟩

/-- No non-empty suffix of `a` is prefix-comparable with `old`: the
condition under which replacement passes over `a` untouched. -/
def IncompWith (a old : Str) : Prop :=
  ∀ t, t ≠ [] → t <:+ a → ¬ t <+: old ∧ ¬ old <+: t

/-- `IncompWith` from its (decidable) restatement over `a.tails`. -/
lemma incompWith_of_tails (a old : Str)
    (h : ∀ t ∈ a.tails, t = [] ∨ (¬ t <+: old ∧ ¬ old <+: t)) : IncompWith a old := by
  intro t ht hs
  rcases h t ((List.mem_tails t a).mpr hs) with h' | h'
  · exact absurd h' ht
  · exact h'

/-- Replacement distributes over an append whose left part cannot
overlap an occurrence of `old`. -/
lemma repA_append_of_incomp (old new : Str) :
    ∀ a b, IncompWith a old → repA old new (a ++ b) = a ++ repA old new b := by
  intro a
  induction a with
  | nil =>
    intro b _
    simp
  | cons x a' ih =>
    intro b H
    have hx : ¬ old <+: (x :: (a' ++ b)) := by
      intro h
      have h' : old <+: (x :: a') ++ b := by rw [List.cons_append]; exact h
      rcases prefix_append_comparable h' with hcmp | hcmp
      · exact (H (x :: a') (by simp) List.suffix_rfl).1 hcmp
      · exact (H (x :: a') (by simp) List.suffix_rfl).2 hcmp
    rw [List.cons_append, repA_cons]
    rw [if_neg (fun hcon => hx hcon.2)]
    rw [ih b (fun t ht hs => H t ht (hs.trans (List.suffix_cons x a')))]
    rfl

/-- Replacement substitutes an occurrence of `old` sitting at the head. -/
lemma repA_head_eq (old new b : Str) (h : old ≠ []) :
    repA old new (old ++ b) = new ++ repA old new b := by
  cases old with
  | nil => exact absurd rfl h
  | cons o old' =>
    rw [List.cons_append, repA_cons]
    rw [if_pos ⟨h, by rw [← List.cons_append]; exact List.prefix_append _ _⟩]
    have hl : (o :: old').length - 1 = old'.length := by simp
    rw [hl, List.drop_left]

/-- Replacement passes over a left part free of the character `<` when
the needle starts with `<`. -/
lemma repA_over_noangle (old new o' a b : Str) (hold : old = '<' :: o') (ha : '<' ∉ a) :
    repA old new (a ++ b) = a ++ repA old new b := by
  apply repA_append_of_incomp
  intro t ht hs
  cases t with
  | nil => exact absurd rfl ht
  | cons th t' =>
    have hmem : th ∈ a := hs.subset (List.mem_cons_self th t')
    constructor
    · intro hp
      rw [hold] at hp
      rcases List.cons_prefix_cons.mp hp with ⟨rfl, _⟩
      exact ha hmem
    · intro hp
      rw [hold] at hp
      rcases List.cons_prefix_cons.mp hp with ⟨heq, _⟩
      rw [← heq] at hmem
      exact ha hmem

/-- A token starting with `<` cannot begin at a character other than
`<`. -/
lemma not_tok_prefix_of_head (tokTail : Str) (c : Char) (cs : Str) (hne : c ≠ '<') :
    ¬ ('<' :: tokTail) <+: (c :: cs) := by
  intro h
  exact hne (List.cons_prefix_cons.mp h).1.symm

/-- Replacement leaves a non-`<` head character in place when the
needle starts with `<`. -/
lemma repA_lit (old new o' : Str) (c : Char) (cs : Str) (hold : old = '<' :: o')
    (hne : c ≠ '<') : repA old new (c :: cs) = c :: repA old new cs := by
  rw [repA_cons]
  rw [if_neg (fun hcon => not_tok_prefix_of_head o' c cs hne (hold ▸ hcon.2))]

/-- `<locale_name>` never begins `<locale_code> ++ u`. -/
lemma name_not_prefix_code_append (u : Str) : ¬ nameTok <+: codeTok ++ u := by
  intro h
  rcases prefix_append_comparable h with h' | h' <;> revert h' <;> decide

/-- `<locale_name>` never begins `<tag> ++ u`. -/
lemma name_not_prefix_tag_append (u : Str) : ¬ nameTok <+: tagTok ++ u := by
  intro h
  rcases prefix_append_comparable h with h' | h' <;> revert h' <;> decide

/-- `<locale_code>` never begins `<tag> ++ u`. -/
lemma code_not_prefix_tag_append (u : Str) : ¬ codeTok <+: tagTok ++ u := by
  intro h
  rcases prefix_append_comparable h with h' | h' <;> revert h' <;> decide

/-- `<locale_name>` replacement passes over a literal `<locale_code>`. -/
lemma repA_name_over_code (vn u : Str) :
    repA nameTok vn (codeTok ++ u) = codeTok ++ repA nameTok vn u := by
  apply repA_append_of_incomp
  apply incompWith_of_tails
  decide

/-- `<locale_name>` replacement passes over a literal `<tag>`. -/
lemma repA_name_over_tag (vn u : Str) :
    repA nameTok vn (tagTok ++ u) = tagTok ++ repA nameTok vn u := by
  apply repA_append_of_incomp
  apply incompWith_of_tails
  decide

/-- `<locale_code>` replacement passes over a literal `<tag>`. -/
lemma repA_code_over_tag (vc u : Str) :
    repA codeTok vc (tagTok ++ u) = tagTok ++ repA codeTok vc u := by
  apply repA_append_of_incomp
  apply incompWith_of_tails
  decide

/-- Fuel irrelevance for `simSubstF`. -/
lemma simSubstF_fuel (vn vc vt : Str) :
    ∀ f₁ f₂ s, s.length ≤ f₁ → s.length ≤ f₂ →
      simSubstF vn vc vt f₁ s = simSubstF vn vc vt f₂ s := by
  intro f₁
  induction f₁ with
  | zero =>
    intro f₂ s h1 _
    have : s = [] := List.eq_nil_of_length_eq_zero (Nat.le_zero.mp h1)
    subst this
    cases f₂ <;> rfl
  | succ f ih =>
    intro f₂ s h1 h2
    cases s with
    | nil => cases f₂ <;> rfl
    | cons c cs =>
      cases f₂ with
      | zero => simp at h2
      | succ f₂' =>
        simp only [simSubstF]
        have hcs : cs.length ≤ f := by simp at h1; omega
        have hcs2 : cs.length ≤ f₂' := by simp at h2; omega
        have hdn : ∀ n, (List.drop n cs).length ≤ f := by
          intro n; simp only [List.length_drop]; omega
        have hdn2 : ∀ n, (List.drop n cs).length ≤ f₂' := by
          intro n; simp only [List.length_drop]; omega
        by_cases hA : nameTok <+: (c :: cs)
        · rw [if_pos hA, if_pos hA, ih _ _ (hdn _) (hdn2 _)]
        · rw [if_neg hA, if_neg hA]
          by_cases hB : codeTok <+: (c :: cs)
          · rw [if_pos hB, if_pos hB, ih _ _ (hdn _) (hdn2 _)]
          · rw [if_neg hB, if_neg hB]
            by_cases hC : tagTok <+: (c :: cs)
            · rw [if_pos hC, if_pos hC, ih _ _ (hdn _) (hdn2 _)]
            · rw [if_neg hC, if_neg hC, ih _ _ hcs hcs2]

/-- Unfolding equation of `simSubst` on a non-empty string. -/
lemma simSubst_cons (vn vc vt : Str) (c : Char) (cs : Str) :
    simSubst vn vc vt (c :: cs) =
      if nameTok <+: (c :: cs) then
        vn ++ simSubst vn vc vt (List.drop (nameTok.length - 1) cs)
      else if codeTok <+: (c :: cs) then
        vc ++ simSubst vn vc vt (List.drop (codeTok.length - 1) cs)
      else if tagTok <+: (c :: cs) then
        vt ++ simSubst vn vc vt (List.drop (tagTok.length - 1) cs)
      else c :: simSubst vn vc vt cs := by
  show simSubstF vn vc vt (c :: cs).length (c :: cs) = _
  simp only [List.length_cons, simSubstF]
  have hd : ∀ n, simSubstF vn vc vt cs.length (List.drop n cs) =
      simSubstF vn vc vt (List.drop n cs).length (List.drop n cs) := by
    intro n
    exact simSubstF_fuel _ _ _ _ _ _ (by simp [List.length_drop]) (le_refl _)
  by_cases hA : nameTok <+: (c :: cs)
  · rw [if_pos hA, if_pos hA, hd]
    rfl
  · rw [if_neg hA, if_neg hA]
    by_cases hB : codeTok <+: (c :: cs)
    · rw [if_pos hB, if_pos hB, hd]
      rfl
    · rw [if_neg hB, if_neg hB]
      by_cases hC : tagTok <+: (c :: cs)
      · rw [if_pos hC, if_pos hC, hd]
        rfl
      · rw [if_neg hC, if_neg hC,
          simSubstF_fuel _ _ _ _ _ _ (by simp) (le_refl _)]
        rfl

/-- Fuel irrelevance for `patOkF`. -/
lemma patOkF_fuel :
    ∀ f₁ f₂ s, s.length ≤ f₁ → s.length ≤ f₂ → patOkF f₁ s = patOkF f₂ s := by
  intro f₁
  induction f₁ with
  | zero =>
    intro f₂ s h1 _
    have : s = [] := List.eq_nil_of_length_eq_zero (Nat.le_zero.mp h1)
    subst this
    cases f₂ <;> rfl
  | succ f ih =>
    intro f₂ s h1 h2
    cases s with
    | nil => cases f₂ <;> rfl
    | cons c cs =>
      cases f₂ with
      | zero => simp at h2
      | succ f₂' =>
        simp only [patOkF]
        have hcs : cs.length ≤ f := by simp at h1; omega
        have hcs2 : cs.length ≤ f₂' := by simp at h2; omega
        have hdn : ∀ n, (List.drop n cs).length ≤ f := by
          intro n; simp only [List.length_drop]; omega
        have hdn2 : ∀ n, (List.drop n cs).length ≤ f₂' := by
          intro n; simp only [List.length_drop]; omega
        by_cases hA : nameTok <+: (c :: cs)
        · rw [if_pos hA, if_pos hA, ih _ _ (hdn _) (hdn2 _)]
        · rw [if_neg hA, if_neg hA]
          by_cases hB : codeTok <+: (c :: cs)
          · rw [if_pos hB, if_pos hB, ih _ _ (hdn _) (hdn2 _)]
          · rw [if_neg hB, if_neg hB]
            by_cases hC : tagTok <+: (c :: cs)
            · rw [if_pos hC, if_pos hC, ih _ _ (hdn _) (hdn2 _)]
            · rw [if_neg hC, if_neg hC, ih _ _ hcs hcs2]

/-- Unfolding equation of `patOk` on a non-empty string. -/
lemma patOk_cons (c : Char) (cs : Str) :
    patOk (c :: cs) =
      if nameTok <+: (c :: cs) then patOk (List.drop (nameTok.length - 1) cs)
      else if codeTok <+: (c :: cs) then patOk (List.drop (codeTok.length - 1) cs)
      else if tagTok <+: (c :: cs) then patOk (List.drop (tagTok.length - 1) cs)
      else decide (c ≠ '<') && decide (c ≠ '>') && patOk cs := by
  show patOkF (c :: cs).length (c :: cs) = _
  simp only [List.length_cons, patOkF]
  have hd : ∀ n, patOkF cs.length (List.drop n cs) =
      patOkF (List.drop n cs).length (List.drop n cs) := by
    intro n
    exact patOkF_fuel _ _ _ (by simp [List.length_drop]) (le_refl _)
  by_cases hA : nameTok <+: (c :: cs)
  · rw [if_pos hA, if_pos hA, hd]
    rfl
  · rw [if_neg hA, if_neg hA]
    by_cases hB : codeTok <+: (c :: cs)
    · rw [if_pos hB, if_pos hB, hd]
      rfl
    · rw [if_neg hB, if_neg hB]
      by_cases hC : tagTok <+: (c :: cs)
      · rw [if_pos hC, if_pos hC, hd]
        rfl
      · rw [if_neg hC, if_neg hC, patOkF_fuel _ _ _ (by simp) (le_refl _)]
        rfl

/-- Simultaneous substitution at a `<locale_name>` occurrence. -/
lemma simSubst_name (vn vc vt u : Str) :
    simSubst vn vc vt (nameTok ++ u) = vn ++ simSubst vn vc vt u := by
  have hsh : nameTok ++ u = '<' :: (str "locale_name>" ++ u) := rfl
  rw [hsh, simSubst_cons]
  rw [if_pos (show nameTok <+: '<' :: (str "locale_name>" ++ u) by
    rw [← hsh]; exact List.prefix_append _ _)]
  have hlen : (str "locale_name>").length = nameTok.length - 1 := by decide
  rw [← hlen, List.drop_left]

/-- Simultaneous substitution at a `<locale_code>` occurrence. -/
lemma simSubst_code (vn vc vt u : Str) :
    simSubst vn vc vt (codeTok ++ u) = vc ++ simSubst vn vc vt u := by
  have hsh : codeTok ++ u = '<' :: (str "locale_code>" ++ u) := rfl
  rw [hsh, simSubst_cons]
  rw [if_neg (show ¬ nameTok <+: '<' :: (str "locale_code>" ++ u) by
    rw [← hsh]; exact name_not_prefix_code_append u)]
  rw [if_pos (show codeTok <+: '<' :: (str "locale_code>" ++ u) by
    rw [← hsh]; exact List.prefix_append _ _)]
  have hlen : (str "locale_code>").length = codeTok.length - 1 := by decide
  rw [← hlen, List.drop_left]

/-- Simultaneous substitution at a `<tag>` occurrence. -/
lemma simSubst_tag (vn vc vt u : Str) :
    simSubst vn vc vt (tagTok ++ u) = vt ++ simSubst vn vc vt u := by
  have hsh : tagTok ++ u = '<' :: (str "tag>" ++ u) := rfl
  rw [hsh, simSubst_cons]
  rw [if_neg (show ¬ nameTok <+: '<' :: (str "tag>" ++ u) by
    rw [← hsh]; exact name_not_prefix_tag_append u)]
  rw [if_neg (show ¬ codeTok <+: '<' :: (str "tag>" ++ u) by
    rw [← hsh]; exact code_not_prefix_tag_append u)]
  rw [if_pos (show tagTok <+: '<' :: (str "tag>" ++ u) by
    rw [← hsh]; exact List.prefix_append _ _)]
  have hlen : (str "tag>").length = tagTok.length - 1 := by decide
  rw [← hlen, List.drop_left]

/-- `patOk` at a `<locale_name>` occurrence. -/
lemma patOk_name (u : Str) : patOk (nameTok ++ u) = patOk u := by
  have hsh : nameTok ++ u = '<' :: (str "locale_name>" ++ u) := rfl
  rw [hsh, patOk_cons]
  rw [if_pos (show nameTok <+: '<' :: (str "locale_name>" ++ u) by
    rw [← hsh]; exact List.prefix_append _ _)]
  have hlen : (str "locale_name>").length = nameTok.length - 1 := by decide
  rw [← hlen, List.drop_left]

/-- `patOk` at a `<locale_code>` occurrence. -/
lemma patOk_code (u : Str) : patOk (codeTok ++ u) = patOk u := by
  have hsh : codeTok ++ u = '<' :: (str "locale_code>" ++ u) := rfl
  rw [hsh, patOk_cons]
  rw [if_neg (show ¬ nameTok <+: '<' :: (str "locale_code>" ++ u) by
    rw [← hsh]; exact name_not_prefix_code_append u)]
  rw [if_pos (show codeTok <+: '<' :: (str "locale_code>" ++ u) by
    rw [← hsh]; exact List.prefix_append _ _)]
  have hlen : (str "locale_code>").length = codeTok.length - 1 := by decide
  rw [← hlen, List.drop_left]

/-- `patOk` at a `<tag>` occurrence. -/
lemma patOk_tag (u : Str) : patOk (tagTok ++ u) = patOk u := by
  have hsh : tagTok ++ u = '<' :: (str "tag>" ++ u) := rfl
  rw [hsh, patOk_cons]
  rw [if_neg (show ¬ nameTok <+: '<' :: (str "tag>" ++ u) by
    rw [← hsh]; exact name_not_prefix_tag_append u)]
  rw [if_neg (show ¬ codeTok <+: '<' :: (str "tag>" ++ u) by
    rw [← hsh]; exact code_not_prefix_tag_append u)]
  rw [if_pos (show tagTok <+: '<' :: (str "tag>" ++ u) by
    rw [← hsh]; exact List.prefix_append _ _)]
  have hlen : (str "tag>").length = tagTok.length - 1 := by decide
  rw [← hlen, List.drop_left]

/-- On token-clean patterns, the source's sequential replacement (name,
then code, then tag) agrees with the spec's simultaneous verbatim
substitution, provided the name and code values contain no `<` (so no
later token can begin inside an already substituted value). -/
lemma seq_eq_sim (vn vc vt : Str) (hn : '<' ∉ vn) (hc : '<' ∉ vc) :
    ∀ N s, s.length ≤ N → patOk s = true →
      repA tagTok vt (repA codeTok vc (repA nameTok vn s)) = simSubst vn vc vt s := by
  intro N
  induction N with
  | zero =>
    intro s hs _
    have : s = [] := List.eq_nil_of_length_eq_zero (Nat.le_zero.mp hs)
    subst this
    rfl
  | succ N ih =>
    intro s hs hp
    cases s with
    | nil => rfl
    | cons c cs =>
      by_cases hA : nameTok <+: (c :: cs)
      · obtain ⟨u, hu⟩ := hA
        have hlen := congrArg List.length hu
        rw [List.length_append] at hlen
        have h13 : nameTok.length = 13 := by decide
        rw [h13] at hlen
        simp only [List.length_cons] at hlen hs
        have hulen : u.length ≤ N := by omega
        rw [← hu] at hp ⊢
        rw [patOk_name] at hp
        rw [repA_head_eq nameTok vn u (by decide)]
        rw [repA_over_noangle codeTok vc (str "locale_code>") vn _ rfl hn]
        rw [repA_over_noangle tagTok vt (str "tag>") vn _ rfl hn]
        rw [simSubst_name, ih u hulen hp]
      · by_cases hB : codeTok <+: (c :: cs)
        · obtain ⟨u, hu⟩ := hB
          have hlen := congrArg List.length hu
          rw [List.length_append] at hlen
          have h13 : codeTok.length = 13 := by decide
          rw [h13] at hlen
          simp only [List.length_cons] at hlen hs
          have hulen : u.length ≤ N := by omega
          rw [← hu] at hp ⊢
          rw [patOk_code] at hp
          rw [repA_name_over_code]
          rw [repA_head_eq codeTok vc (repA nameTok vn u) (by decide)]
          rw [repA_over_noangle tagTok vt (str "tag>") vc _ rfl hc]
          rw [simSubst_code, ih u hulen hp]
        · by_cases hC : tagTok <+: (c :: cs)
          · obtain ⟨u, hu⟩ := hC
            have hlen := congrArg List.length hu
            rw [List.length_append] at hlen
            have h5 : tagTok.length = 5 := by decide
            rw [h5] at hlen
            simp only [List.length_cons] at hlen hs
            have hulen : u.length ≤ N := by omega
            rw [← hu] at hp ⊢
            rw [patOk_tag] at hp
            rw [repA_name_over_tag]
            rw [repA_code_over_tag]
            rw [repA_head_eq tagTok vt (repA codeTok vc (repA nameTok vn u)) (by decide)]
            rw [simSubst_tag, ih u hulen hp]
          · rw [patOk_cons, if_neg hA, if_neg hB, if_neg hC] at hp
            simp only [Bool.and_eq_true, decide_eq_true_eq] at hp
            obtain ⟨⟨hlt, _⟩, hocs⟩ := hp
            rw [repA_lit nameTok vn (str "locale_name>") c cs rfl hlt]
            rw [repA_lit codeTok vc (str "locale_code>") c (repA nameTok vn cs) rfl hlt]
            rw [repA_lit tagTok vt (str "tag>") c
              (repA codeTok vc (repA nameTok vn cs)) rfl hlt]
            rw [simSubst_cons, if_neg hA, if_neg hB, if_neg hC]
            rw [ih cs (by simp only [List.length_cons] at hs; omega) hocs]

/-- The English catalog record of the spec's scenarios. -/
def enRec : LocaleRec := ⟨str "l1", str "English", str "en"⟩

/-- The German catalog record of the spec's scenarios. -/
def deRec : LocaleRec := ⟨str "l2", str "German", str "de"⟩

/-- An empty filesystem. -/
def fsEmpty : FS := ⟨[], []⟩

/-- Scenario target: pattern `/locales/<locale_code>.yml`, no selector,
the English/German catalog. -/
def tgtCode : Target :=
  { file := str "/locales/<locale_code>.yml", projectID := str "p1", accessToken := [],
    fileFormat := str "yml", params := none,
    remoteLocales := [some enRec, some deRec] }

/-- Scenario target: pattern `/locales/<locale_name>.yml`, selector
`l2`, the English/German catalog. -/
def tgtName : Target :=
  { file := str "/locales/<locale_name>.yml", projectID := str "p1", accessToken := [],
    fileFormat := str "yml",
    params := some { downloadParams := { fileFormat := none, tag := none },
                     localeID := str "l2" },
    remoteLocales := [some enRec, some deRec] }

/-- Scenario target: wildcard pattern `/locales/*/<locale_code>.yml`. -/
def tgtStar : Target :=
  { file := str "/locales/*/<locale_code>.yml", projectID := str "p1", accessToken := [],
    fileFormat := str "yml", params := none, remoteLocales := [] }

/-- A selector-set target whose catalog holds a nil record. -/
def tgtNilSel : Target :=
  { file := str "/x.yml", projectID := str "p", accessToken := [], fileFormat := [],
    params := some { downloadParams := { fileFormat := none, tag := none },
                     localeID := str "x" },
    remoteLocales := [none] }

/-- A selector-free target whose catalog holds a nil record. -/
def tgtNilNoSel : Target :=
  { file := str "/x.yml", projectID := str "p", accessToken := [], fileFormat := [],
    params := none, remoteLocales := [none] }

/-- An environment whose fetch returns the English/German catalog and
whose downloads all succeed. -/
def envSimple : Env :=
  { wd := str "/",
    fetch := fun _ => .ok [some enRec, some deRec],
    download := fun _ _ _ => .ok (str "content") }

/-- An environment whose download fails exactly for locale id `l2`. -/
def envFail : Env :=
  { wd := str "/",
    fetch := fun _ => .ok [some enRec, some deRec],
    download := fun _ lid _ => if lid = str "l2" then .error (str "boom") else .ok (str "data") }

/-- The resolved file for the English record under `tgtCode`. -/
def lfEn : LocaleFile :=
  { name := str "English", id := str "l1", rfc := str "en", tag := [],
    fileFormat := str "yml", path := str "/locales/en.yml" }

/-- The resolved file for the German record under `tgtCode`. -/
def lfDe : LocaleFile :=
  { name := str "German", id := str "l2", rfc := str "de", tag := [],
    fileFormat := str "yml", path := str "/locales/de.yml" }

/-- The resolution outcome is an ordinary descriptive error (not a
crash, not a success). -/
def isDescriptiveErr : Except Failure (List LocaleFile) → Bool
  | .error (.err _) => true
  | _ => false

/-- C1: for a valid download pattern and a catalog of well-formed
records (non-nil; non-empty code whenever the pattern uses
`<locale_code>`), resolution with no selector produces one
`ResolvedFile` per record, in catalog order with no de-duplication,
each carrying the record's id and code and a path obtained by
placeholder expansion. -/
theorem C1_no_selector_resolves_all (tgt : Target) (wd : Str) (locs : List LocaleRec)
    (_hck : tgt.CheckPreconditions = .ok ())
    (hsel : tgt.GetLocaleID = [])
    (hcat : tgt.remoteLocales = locs.map some)
    (hval : ∀ loc ∈ locs, containsSub codeTok tgt.file = true → loc.code ≠ []) :
    tgt.LocaleFiles wd = (.ok (locs.map (tgt.resolvedFileFor wd)), []) ∧
    (locs.map (tgt.resolvedFileFor wd)).length = locs.length := by
  constructor
  · unfold Target.LocaleFiles
    rw [hcat]
    exact lfGo_all tgt wd hsel locs hval
  · simp

/-- C1 witness: the spec's scenario — pattern
`/locales/<locale_code>.yml` over (l1, English, en), (l2, German, de)
resolves to `/locales/en.yml` with `l1` and `/locales/de.yml` with
`l2`, in that order. -/
theorem C1_no_selector_resolves_all_witness :
    tgtCode.CheckPreconditions = .ok () ∧
    (tgtCode.LocaleFiles (str "/")).1 = .ok [lfEn, lfDe] := by
  constructor
  · decide
  · have h := (C1_no_selector_resolves_all tgtCode (str "/") [enRec, deRec]
      (by decide) rfl rfl (by decide)).1
    rw [h]
    decide

/-- C7 counterexample: with a selector set, a nil catalog record is
dereferenced by the filter line and the process crashes with a nil
pointer panic instead of failing with a descriptive error. -/
theorem C7_counterexample :
    (tgtNilSel.LocaleFiles (str "/")).1 = .error (.crash nilDerefMsg) ∧
    isDescriptiveErr (tgtNilSel.LocaleFiles (str "/")).1 = false := by decide

/-- C7 (amended): a catalog containing a nil record never resolves —
the target never yields a file list; with no selector set the failure
is the descriptive nil-record error, while with a selector set the
record is dereferenced by the filter and the process crashes. -/
theorem C7_nil_record_never_resolves (tgt : Target) (wd : Str)
    (hmem : none ∈ tgt.remoteLocales) :
    (∀ fl, (tgt.LocaleFiles wd).1 ≠ .ok fl) ∧
    (tgt.GetLocaleID = [] → ∃ m, (tgt.LocaleFiles wd).1 = .error (.err m)) :=
  lfGo_nil_mem tgt wd tgt.remoteLocales hmem

/-- C7 witness: a selector-free target with a nil record resolves to no
file list. -/
theorem C7_nil_record_never_resolves_witness :
    none ∈ tgtNilNoSel.remoteLocales ∧ (tgtNilNoSel.LocaleFiles (str "/")).1 ≠ .ok [] :=
  ⟨by decide, (C7_nil_record_never_resolves tgtNilNoSel (str "/") (by decide)).1 []⟩

/-- C8 counterexample: substituted values are rescanned by the later
replacement passes — substituting `<locale_code>` for `<locale_name>`
in `/<locale_name>` yields `/en` (the value was re-substituted), not
the verbatim `/<locale_code>`. -/
theorem C8_counterexample :
    ({ file := str "/<locale_name>", projectID := str "p", accessToken := [],
       fileFormat := [], params := none,
       remoteLocales := [] } : Target).ReplacePlaceholders (str "/")
      { name := str "<locale_code>", id := str "x", rfc := str "en", tag := [],
        fileFormat := [], path := [] } = str "/en" ∧
    str "/en" ≠ str "/<locale_code>" := by decide

/-- C8 (amended): expansion is total (placeholders absent from the
pattern simply contribute nothing), and on patterns whose absolutized
form is literal text free of angle brackets interspersed with
well-formed placeholder tokens, with values containing no `<`, the
sequential replacement of the source substitutes each placeholder
verbatim — it agrees with a single simultaneous verbatim substitution
pass.  In general the passes run in the order name, code, tag, and a
later placeholder token occurring inside an earlier substituted value
is itself substituted. -/
theorem C8_verbatim_expansion (tgt : Target) (wd : Str) (lf : LocaleFile)
    (hpat : patOk (goAbs wd tgt.file) = true)
    (hn : '<' ∉ lf.name) (hc : '<' ∉ lf.rfc) :
    tgt.ReplacePlaceholders wd lf = simSubst lf.name lf.rfc lf.tag (goAbs wd tgt.file) := by
  unfold Target.ReplacePlaceholders
  exact seq_eq_sim lf.name lf.rfc lf.tag hn hc (goAbs wd tgt.file).length _ (le_refl _) hpat

set_option maxRecDepth 100000

/-- C8 witness: on the scenario pattern the sequential and simultaneous
substitutions agree and produce `/locales/en.yml`. -/
theorem C8_verbatim_expansion_witness :
    tgtCode.ReplacePlaceholders (str "/") lfEn = str "/locales/en.yml" ∧
    simSubst lfEn.name lfEn.rfc lfEn.tag (goAbs (str "/") tgtCode.file) =
      str "/locales/en.yml" := by
  have h := C8_verbatim_expansion tgtCode (str "/") lfEn (by decide) (by decide) (by decide)
  exact ⟨h.trans (by decide), by decide⟩

/-- C9: a target whose file pattern violates a precondition fails with
that pattern error before the catalog fetch — the pull returns the
error with an empty trace, in particular with no fetch event. -/
theorem C9_precondition_failure_before_fetch (env : Env) (tgt : Target) (fs : FS) (m : Str)
    (hc : tgt.CheckPreconditions = .error m) :
    tgt.pull env fs = (.error (.err m), fs, []) ∧
    ∀ pid, Event.fetched pid ∉ (tgt.pull env fs).2.2 := by
  have h : tgt.pull env fs = (.error (.err m), fs, []) := by
    simp [Target.pull, hc]
  refine ⟨h, fun pid => ?_⟩
  rw [h]
  simp

/-- C9 witness: the scenario pattern `/locales/*/<locale_code>.yml`
fails the wildcard precondition and the pull never fetches. -/
theorem C9_precondition_failure_before_fetch_witness :
    tgtStar.CheckPreconditions = .error starErrMsg ∧
    tgtStar.pull envSimple fsEmpty = (.error (.err starErrMsg), fsEmpty, []) :=
  ⟨by decide,
    (C9_precondition_failure_before_fetch envSimple tgtStar fsEmpty starErrMsg (by decide)).1⟩

/-- C2: with a selector set, resolution keeps exactly the catalog
records whose id or name equals the selector; and whenever exactly one
record survives, every transfer call of the pull uses the selector
value verbatim as the locale id (the resolved file's own id is
overwritten). -/
theorem C2_selector_filters_and_overrides (env : Env) (tgt : Target) (fs : FS) (sel : Str)
    (locs : List LocaleRec)
    (hsel : tgt.GetLocaleID = sel) (hne : sel ≠ [])
    (hcat : tgt.remoteLocales = locs.map some)
    (hval : ∀ loc ∈ locs, (loc.id = sel ∨ loc.name = sel) →
      containsSub codeTok tgt.file = true → loc.code ≠ [])
    (hc : tgt.CheckPreconditions = .ok ())
    (hf : env.fetch tgt.projectID = .ok tgt.remoteLocales) :
    tgt.LocaleFiles env.wd =
      (.ok ((locs.filter (fun loc => decide (loc.id = sel) || decide (loc.name = sel))).map
        (tgt.resolvedFileFor env.wd)), []) ∧
    ((locs.filter (fun loc => decide (loc.id = sel) || decide (loc.name = sel))).length = 1 →
      (∃ dlp, Event.downloadAttempt tgt.projectID sel dlp ∈ (tgt.pull env fs).2.2) ∧
      ∀ pid lid dlp, Event.downloadAttempt pid lid dlp ∈ (tgt.pull env fs).2.2 → lid = sel) := by
  have hlf : tgt.LocaleFiles env.wd =
      (.ok ((locs.filter (fun loc => decide (loc.id = sel) || decide (loc.name = sel))).map
        (tgt.resolvedFileFor env.wd)), []) := by
    unfold Target.LocaleFiles
    rw [hcat]
    exact lfGo_filter tgt env.wd sel hsel hne locs hval
  refine ⟨hlf, ?_⟩
  intro hone
  obtain ⟨loc₀, hl0⟩ := List.length_eq_one.mp hone
  have hfiles : tgt.LocaleFiles env.wd = (.ok [tgt.resolvedFileFor env.wd loc₀], []) := by
    rw [hlf, hl0]
    simp
  have hp := pull_eq_loop tgt env fs [tgt.resolvedFileFor env.wd loc₀] [] hc hf hfiles
  have hd : distinctFlag tgt [tgt.resolvedFileFor env.wd loc₀] = true := by
    simp [distinctFlag, hsel, hne]
  rw [hd] at hp
  have heff : tgt.effectiveFile true (tgt.resolvedFileFor env.wd loc₀) =
      {tgt.resolvedFileFor env.wd loc₀ with id := sel} := by
    simp [Target.effectiveFile, hsel, hne]
  rcases hdl : env.download tgt.projectID sel
      (mkDownloadParams tgt {tgt.resolvedFileFor env.wd loc₀ with id := sel}) with e | b
  · constructor
    · refine ⟨mkDownloadParams tgt {tgt.resolvedFileFor env.wd loc₀ with id := sel}, ?_⟩
      rw [hp]
      simp [Target.pullLoop, Target.DownloadAndWriteToFile, heff, hdl]
    · intro pid lid dlp hmem
      rw [hp] at hmem
      simp [Target.pullLoop, Target.DownloadAndWriteToFile, heff, hdl] at hmem
      rcases hmem with ⟨_, h, _⟩
      exact h
  · constructor
    · refine ⟨mkDownloadParams tgt {tgt.resolvedFileFor env.wd loc₀ with id := sel}, ?_⟩
      rw [hp]
      simp [Target.pullLoop, Target.DownloadAndWriteToFile, heff, hdl]
    · intro pid lid dlp hmem
      rw [hp] at hmem
      simp [Target.pullLoop, Target.DownloadAndWriteToFile, heff, hdl] at hmem
      rcases hmem with ⟨_, h, _⟩
      exact h

/-- C2 witness: the spec's scenario — pattern
`/locales/<locale_name>.yml` with selector `l2` resolves to exactly the
file `/locales/German.yml` and the transfer call uses locale id `l2`. -/
theorem C2_selector_filters_and_overrides_witness :
    (tgtName.LocaleFiles envSimple.wd).1 =
      .ok [{ name := str "German", id := str "l2", rfc := str "de", tag := [],
             fileFormat := str "yml", path := str "/locales/German.yml" }] ∧
    (∃ dlp, Event.downloadAttempt (str "p1") (str "l2") dlp ∈
      (tgtName.pull envSimple fsEmpty).2.2) := by
  have h := C2_selector_filters_and_overrides envSimple tgtName fsEmpty (str "l2")
    [enRec, deRec] rfl (by decide) rfl (by decide) (by decide) rfl
  constructor
  · rw [h.1]
    decide
  · exact (h.2 (by decide)).1

/-- C3: when the pattern uses `<locale_code>` and some matched record
has an empty code, resolution fails for the whole target with the
error naming the offending locale id, produces no file list, and the
pull never attempts a transfer. -/
theorem C3_empty_code_aborts_resolution (env : Env) (tgt : Target) (fs : FS)
    (locs : List LocaleRec)
    (hcontains : containsSub codeTok tgt.file = true)
    (hcat : tgt.remoteLocales = locs.map some)
    (hex : ∃ loc ∈ locs, tgt.matchedBy loc ∧ loc.code = [])
    (hc : tgt.CheckPreconditions = .ok ())
    (hf : env.fetch tgt.projectID = .ok tgt.remoteLocales) :
    ∃ loc ∈ locs, tgt.matchedBy loc ∧ loc.code = [] ∧
      (tgt.LocaleFiles env.wd).1 = .error (.err (codeMissingMsg loc.id)) ∧
      (tgt.pull env fs).1 = .error (.err (codeMissingMsg loc.id)) ∧
      ∀ pid lid dlp, Event.downloadAttempt pid lid dlp ∉ (tgt.pull env fs).2.2 := by
  rcases lfGo_code_missing tgt env.wd locs hcontains hex with ⟨loc, hmem, hm, hcode, heq⟩
  have hlf : tgt.LocaleFiles env.wd =
      (.error (.err (codeMissingMsg loc.id)),
        [.reportedError pullErrCtx (codeMissingMsg loc.id)]) := by
    unfold Target.LocaleFiles
    rw [hcat]
    exact heq
  have hpull := pull_eq_resolution_failure tgt env fs _ _ hc hf hlf
  refine ⟨loc, hmem, hm, hcode, by rw [hlf], by rw [hpull], ?_⟩
  intro pid lid dlp hmemE
  rw [hpull] at hmemE
  simp at hmemE

/-- C3 witness: over a catalog whose German record lacks a code, the
scenario pattern fails with the error naming `l2` and the pull makes no
transfer attempt. -/
theorem C3_empty_code_aborts_resolution_witness :
    ((({ tgtCode with remoteLocales :=
          [some enRec, some ⟨str "l2", str "German", []⟩] } : Target).pull
        { envSimple with fetch := fun _ => .ok [some enRec, some ⟨str "l2", str "German", []⟩] }
        fsEmpty).1 = .error (.err (codeMissingMsg (str "l2")))) := by
  have h := C3_empty_code_aborts_resolution
    { envSimple with fetch := fun _ => .ok [some enRec, some ⟨str "l2", str "German", []⟩] }
    { tgtCode with remoteLocales := [some enRec, some ⟨str "l2", str "German", []⟩] }
    fsEmpty [enRec, ⟨str "l2", str "German", []⟩]
    (by decide) rfl ⟨⟨str "l2", str "German", []⟩, by decide, Or.inl rfl, rfl⟩
    (by decide) rfl
  rcases h with ⟨loc, hmem, _, hcode, _, hpull, _⟩
  have : loc = ⟨str "l2", str "German", []⟩ := by
    rcases List.mem_cons.mp hmem with h1 | h1
    · rw [h1] at hcode
      exact absurd hcode (by decide)
    · simpa using h1
  rw [this] at hpull
  exact hpull

/-- C5: a pattern containing the wildcard fails precondition checking
with the wildcard pattern error; a pattern without it never fails the
wildcard rule. -/
theorem C5_wildcard_rule (tgt : Target) :
    (countSub starTok tgt.file > 0 → tgt.CheckPreconditions = .error starErrMsg) ∧
    (countSub starTok tgt.file = 0 → tgt.CheckPreconditions ≠ .error starErrMsg) := by
  constructor
  · intro h
    simp [Target.CheckPreconditions, ValidPath, h]
  · intro h0
    have hns : ¬ countSub starTok tgt.file > 0 := by omega
    by_cases h1 : countSub nameTok tgt.file > 1 <;>
      by_cases h2 : countSub codeTok tgt.file > 1 <;>
        by_cases h3 : countSub tagTok tgt.file > 1 <;>
          simp +decide [Target.CheckPreconditions, ValidPath, hns, placeholderToks,
            List.filter_cons, List.filter_nil, h1, h2, h3, dupErrMsg, joinSep]

/-- C5 witness: the wildcard pattern of `tgtStar` fails with the
wildcard error; the wildcard-free pattern of `tgtCode` does not. -/
theorem C5_wildcard_rule_witness :
    tgtStar.CheckPreconditions = .error starErrMsg ∧
    tgtCode.CheckPreconditions ≠ .error starErrMsg :=
  ⟨(C5_wildcard_rule tgtStar).1 (by decide), (C5_wildcard_rule tgtCode).2 (by decide)⟩

/-- C6: precondition checking fails when any of the three placeholders
occurs at least twice in the pattern, and passes when each occurs at
most once and no wildcard is present. -/
theorem C6_duplicate_placeholder_rule (tgt : Target) :
    ((∃ tok ∈ placeholderToks, countSub tok tgt.file > 1) → tgt.CheckPreconditions ≠ .ok ()) ∧
    ((∀ tok ∈ placeholderToks, countSub tok tgt.file ≤ 1) → countSub starTok tgt.file = 0 →
      tgt.CheckPreconditions = .ok ()) := by
  constructor
  · rintro ⟨tok, htok, hgt⟩
    by_cases hstar : countSub starTok tgt.file > 0
    · simp [Target.CheckPreconditions, ValidPath, hstar]
    · have hfil : tok ∈ placeholderToks.filter (fun nm => decide (countSub nm tgt.file > 1)) :=
        List.mem_filter.mpr ⟨htok, by simp [hgt]⟩
      have hlen : 0 < (placeholderToks.filter
          (fun nm => decide (countSub nm tgt.file > 1))).length :=
        List.length_pos.mpr (List.ne_nil_of_mem hfil)
      simp [Target.CheckPreconditions, ValidPath, hstar, hlen]
  · intro hall hstar
    have hfil : placeholderToks.filter (fun nm => decide (countSub nm tgt.file > 1)) = [] := by
      rw [List.filter_eq_nil_iff]
      intro a ha
      have := hall a ha
      simp
      omega
    simp [Target.CheckPreconditions, ValidPath, hstar, hfil]

/-- C6 witness: a pattern repeating `<locale_code>` twice fails; the
scenario pattern with each placeholder at most once passes. -/
theorem C6_duplicate_placeholder_rule_witness :
    ({ tgtCode with file := str "/<locale_code>/<locale_code>.yml" } :
      Target).CheckPreconditions ≠ .ok () ∧
    tgtCode.CheckPreconditions = .ok () :=
  ⟨(C6_duplicate_placeholder_rule _).1 ⟨codeTok, by decide, by decide⟩,
   (C6_duplicate_placeholder_rule tgtCode).2 (by decide) (by decide)⟩

/-- C4: the per-target run returns nil exactly when every resolved file
transfers successfully; and when the first `k` transfers succeed and
the `k`-th fails, the run returns the failure annotated with that
file's destination path, and its trace is exactly the fetch, the
resolution events, the success reports of the first `k` files, the
failing attempt and its error report — no later file is attempted. -/
theorem C4_transfer_failure_aborts_target (env : Env) (tgt : Target) (fs : FS)
    (files : List LocaleFile) (evs : List Event)
    (hc : tgt.CheckPreconditions = .ok ())
    (hf : env.fetch tgt.projectID = .ok tgt.remoteLocales)
    (hlf : tgt.LocaleFiles env.wd = (.ok files, evs)) :
    ((tgt.pull env fs).1 = .ok () ↔
      ∀ lf ∈ files, ∃ b, transferResult env tgt (distinctFlag tgt files) lf = .ok b) ∧
    (∀ k (hk : k < files.length) (e : Str),
      (∀ i (hi : i < k), ∃ b,
        transferResult env tgt (distinctFlag tgt files)
          (files.get ⟨i, Nat.lt_trans hi hk⟩) = .ok b) →
      transferResult env tgt (distinctFlag tgt files) (files.get ⟨k, hk⟩) = .error e →
      (tgt.pull env fs).1 =
        .error (.err (e ++ str " for "
          ++ (tgt.effectiveFile (distinctFlag tgt files) (files.get ⟨k, hk⟩)).path)) ∧
      (tgt.pull env fs).2.2 =
        (Event.fetched tgt.projectID :: evs) ++
          ((files.take k).map (successTrace tgt (distinctFlag tgt files))).flatten ++
          [Event.downloadAttempt tgt.projectID
             (tgt.effectiveFile (distinctFlag tgt files) (files.get ⟨k, hk⟩)).id
             (mkDownloadParams tgt
               (tgt.effectiveFile (distinctFlag tgt files) (files.get ⟨k, hk⟩))),
           Event.reportedError pullErrCtx
             (e ++ str " for "
               ++ (tgt.effectiveFile (distinctFlag tgt files) (files.get ⟨k, hk⟩)).path)]) := by
  have hp := pull_eq_loop tgt env fs files evs hc hf hlf
  constructor
  · rw [hp]
    exact pullLoop_ok_iff env tgt (distinctFlag tgt files) fs files
  · intro k hk e hpre hfail
    rcases pullLoop_fail_at env tgt (distinctFlag tgt files) files k fs e hk hpre hfail
      with ⟨h1, h2⟩
    constructor
    · rw [hp]
      exact h1
    · rw [hp]
      simp only []
      rw [h2]
      simp [List.append_assoc]

/-- C4 witness: with `tgtCode` resolving to the English and German
files and the German download failing, the run fails with the error
annotated with `/locales/de.yml` after the English success. -/
theorem C4_transfer_failure_aborts_target_witness :
    (tgtCode.pull envFail fsEmpty).1 = .error (.err (str "boom for /locales/de.yml")) ∧
    (tgtCode.pull envFail fsEmpty).2.2 =
      [Event.fetched (str "p1"),
       Event.downloadAttempt (str "p1") (str "l1") ⟨some (str "yml"), none⟩,
       Event.reportedSuccess lfEn,
       Event.downloadAttempt (str "p1") (str "l2") ⟨some (str "yml"), none⟩,
       Event.reportedError pullErrCtx (str "boom for /locales/de.yml")] := by
  have h := C4_transfer_failure_aborts_target envFail tgtCode fsEmpty [lfEn, lfDe] []
    (by decide) rfl (by decide)
  have h2 := h.2 1 (by decide) (str "boom")
    (by
      intro i hi
      have : i = 0 := by omega
      subst this
      exact ⟨str "data",
        (by decide : transferResult envFail tgtCode (distinctFlag tgtCode [lfEn, lfDe]) lfEn =
          Except.ok (str "data"))⟩)
    (by decide)
  constructor
  · rw [h2.1]
    decide
  · rw [h2.2]
    decide

/-- `mkdirAllF` never touches regular files. -/
lemma mkdirAllF_files (perm : Nat) :
    ∀ f fs d, (mkdirAllF perm f fs d).files = fs.files := by
  intro f
  induction f with
  | zero =>
    intro fs d
    rfl
  | succ f ih =>
    intro fs d
    simp only [mkdirAllF]
    by_cases h : fs.dirExists d = true
    · rw [if_pos h]
    · rw [if_neg h]
      by_cases hp : dirOf d = d
      · simp [hp]
      · simp [hp, ih]

/-- `createEmpty` never touches directories. -/
lemma createEmpty_dirs (fs : FS) (p : Str) : (fs.createEmpty p).dirs = fs.dirs := by
  unfold FS.createEmpty
  rcases fs.findFile p with _ | _ <;> rfl

/-- C10 counterexample: `createFile` on a fresh path creates the empty
file with the default permission bits 0666 (from `os.Create`), not
0700. -/
theorem C10_counterexample :
    (createFile fsEmpty (str "/a/b.yml")).findFile (str "/a/b.yml") = some (0o666, []) ∧
    (0o666 : Nat) ≠ 0o700 := by decide

/-- C10 (amended): for a resolved file whose destination path does not
yet exist, the loop creates the missing parent directory with
permission 0700 and an empty file at the path with the default 0666
permission bits of `os.Create` before attempting the download, so when
the transfer fails the empty file and the directory remain on disk (no
rollback); a pre-existing destination path is left untouched by
`createFile`. -/
theorem C10_creates_empty_file_before_download :
    (∀ (env : Env) (tgt : Target) (d : Bool) (fs : FS) (lf : LocaleFile)
        (rest : List LocaleFile) (e : Str),
      fs.pathExists lf.path = false →
      fs.pathExists (dirOf lf.path) = false →
      transferResult env tgt d lf = .error e →
      (tgt.pullLoop env d fs (lf :: rest)).2.1.findFile lf.path = some (0o666, []) ∧
      (tgt.pullLoop env d fs (lf :: rest)).2.1.findDir (dirOf lf.path) = some 0o700 ∧
      (tgt.pullLoop env d fs (lf :: rest)).1 ≠ .ok ()) ∧
    (∀ (fs : FS) (p : Str), fs.pathExists p = true → createFile fs p = fs) := by
  constructor
  · intro env tgt d fs lf rest e hnf hnd hfail
    have hnd' : fs.dirExists (dirOf lf.path) = false := by
      unfold FS.pathExists at hnd
      simp at hnd
      exact hnd.2
    have hfile_none : fs.findFile lf.path = none := by
      unfold FS.pathExists FS.fileExists at hnf
      simp at hnf
      rcases h : fs.findFile lf.path with _ | v
      · rfl
      · rw [h] at hnf
        simp at hnf
    have hmdfiles : (fs.mkdirAll (dirOf lf.path) 0o700).files = fs.files :=
      mkdirAllF_files _ _ _ _
    have hmd_none : (fs.mkdirAll (dirOf lf.path) 0o700).findFile lf.path = none := by
      unfold FS.findFile
      unfold FS.findFile at hfile_none
      rw [hmdfiles]
      exact hfile_none
    have hcf : createFile fs lf.path =
        (fs.mkdirAll (dirOf lf.path) 0o700).createEmpty lf.path := by
      unfold createFile
      simp [hnf, hnd]
    have hcf_file : (createFile fs lf.path).findFile lf.path = some (0o666, []) := by
      rw [hcf]
      unfold FS.createEmpty
      rw [hmd_none]
      unfold FS.findFile
      simp [List.find?]
    have hcf_dir : (createFile fs lf.path).findDir (dirOf lf.path) = some 0o700 := by
      rw [hcf]
      unfold FS.findDir
      rw [congrArg FS.dirs (rfl : (fs.mkdirAll (dirOf lf.path) 0o700).createEmpty lf.path =
        (fs.mkdirAll (dirOf lf.path) 0o700).createEmpty lf.path)]
      rw [createEmpty_dirs]
      unfold FS.mkdirAll
      simp only [mkdirAllF]
      rw [if_neg (by simp [hnd'])]
      simp [List.find?]
    have hdl : env.download tgt.projectID (tgt.effectiveFile d lf).id
        (mkDownloadParams tgt (tgt.effectiveFile d lf)) = .error e := hfail
    have hfs2 : (tgt.pullLoop env d fs (lf :: rest)).2.1 = createFile fs lf.path := by
      have hpath : (tgt.effectiveFile d lf).path = lf.path := by
        unfold Target.effectiveFile
        by_cases h1 : d <;> by_cases h2 : tgt.GetLocaleID ≠ [] <;> simp [h1, h2]
      simp [Target.pullLoop, Target.DownloadAndWriteToFile, hdl]
    have hres : (tgt.pullLoop env d fs (lf :: rest)).1 ≠ .ok () := by
      simp [Target.pullLoop, Target.DownloadAndWriteToFile, hdl]
    rw [hfs2]
    exact ⟨hcf_file, hcf_dir, hres⟩
  · intro fs p h
    unfold createFile
    rw [if_pos (by simp [h])]

/-- C10 witness: pulling the German file into an empty filesystem with
a failing download leaves the empty destination file (permission 0666)
and its directory (permission 0700) on disk, and an untouched
filesystem already containing the path stays unchanged. -/
theorem C10_creates_empty_file_before_download_witness :
    (tgtCode.pullLoop envFail false fsEmpty [lfDe]).2.1.findFile (str "/locales/de.yml") =
      some (0o666, []) ∧
    (tgtCode.pullLoop envFail false fsEmpty [lfDe]).2.1.findDir (str "/locales") =
      some 0o700 ∧
    createFile ⟨[(str "/locales/de.yml", 0o600, str "old")], []⟩ (str "/locales/de.yml") =
      ⟨[(str "/locales/de.yml", 0o600, str "old")], []⟩ := by
  have h := (C10_creates_empty_file_before_download).1 envFail tgtCode false fsEmpty lfDe []
    (str "boom") (by decide) (by decide) (by decide)
  refine ⟨?_, ?_, ?_⟩
  · have := h.1
    rw [(by decide : lfDe.path = str "/locales/de.yml")] at this
    exact this
  · have := h.2.1
    rw [(by decide : dirOf lfDe.path = str "/locales")] at this
    exact this
  · exact (C10_creates_empty_file_before_download).2
      ⟨[(str "/locales/de.yml", 0o600, str "old")], []⟩ (str "/locales/de.yml") (by decide)
